import Mathlib

/-!
Verification of the Markdown-to-SSML translator (`src/convert.py`).

The translator is a `mistune.HTMLRenderer` subclass (`SSMLRenderer`) whose
overridden methods map Markdown nodes to SSML fragments, plus a wrapper
`markdown_to_ssml` that parses a Markdown source with the external `mistune`
parser and wraps the concatenated fragments in `<speak>...</speak>`, and a
CLI `main` that writes the SSML file and optionally calls the Google
text-to-speech service (`get_ogg`).

We embed the parsed Markdown document as an inductive node tree (the external
parser's output), each renderer method as a Lean function on already-rendered
child text (exactly as `mistune` calls them), and the effectful `main` /
`get_ogg` as trace-producing functions over injected capabilities.
-/

namespace MdToSsml

/-- Inline Markdown nodes, as produced by the external `mistune` parser:
text, emphasis, strong, code span, hard line break, image (src, alt, title)
and link (children, url, title). Raw string fields hold the raw (unescaped)
source content; escaping happens in the renderer. -/
inductive Inline : Type
  | text (raw : String)
  | emphasis (children : List Inline)
  | strong (children : List Inline)
  | codespan (raw : String)
  | linebreak
  | image (src : String) (alt : String) (title : Option String)
  | link (children : List Inline) (url : String) (title : Option String)

/-- Block-level Markdown nodes. `blockQuote`, `bulletList`, `orderedList` and
`listItem` are node types the `SSMLRenderer` does not override; they are
rendered by the inherited `mistune.HTMLRenderer` methods. -/
inductive Block : Type
  | heading (level : Nat) (children : List Inline)
  | paragraph (children : List Inline)
  | thematicBreak
  | blockCode (code : String) (info : Option String)
  | blockQuote (children : List Block)
  | bulletList (items : List Block)
  | orderedList (items : List Block)
  | listItem (children : List Block)

/-- Holds on the characters `html.escape` (with `quote=True`) replaces:
`&`, `<`, `>`, `"`, `'`. -/
def escapable (c : Char) : Bool :=
  c = '&' || c = '<' || c = '>' || c = '"' || c = '\''

/-- The entity `html.escape` substitutes for one character (identity on all
others). `html.escape` applies five sequential single-character
`str.replace` calls (`&`→`&amp;` first, then `<`, `>`, `"`, `'`); since no
replacement string contains a pattern character replaced later, the chain is
exactly this character-wise substitution. -/
def escapeChar (c : Char) : String :=
  if c = '&' then "&amp;"
  else if c = '<' then "&lt;"
  else if c = '>' then "&gt;"
  else if c = '"' then "&quot;"
  else if c = '\'' then "&#x27;"
  else String.mk [c]

/-- Character-list form of `html.escape`. -/
def escapeChars : List Char → List Char
  | [] => []
  | c :: cs => (escapeChar c).data ++ escapeChars cs

/-- Embeds Python's `html.escape(s)` (default `quote=True`), used by
`SSMLRenderer.text`. -/
def html.escape (s : String) : String :=
  String.mk (escapeChars s.data)

/-- Embeds `BREAK_TIMES = {1: "300ms", 2: "200ms", 3: "100ms", 4: "0ms"}` from
`src/convert.py`, as a partial lookup (Python `dict.get`). -/
def BREAK_TIMES (level : Nat) : Option String :=
  if level = 1 then some "300ms"
  else if level = 2 then some "200ms"
  else if level = 3 then some "100ms"
  else if level = 4 then some "0ms"
  else none

/-- Embeds `PARAGRAPH_BREAK = "100ms"`. -/
def PARAGRAPH_BREAK : String := "100ms"

/-- Embeds `LINEBREAK = "400ms"`. -/
def LINEBREAK : String := "400ms"

/-- Embeds `HRULE_BREAK = "600ms"`. -/
def HRULE_BREAK : String := "600ms"

namespace SSMLRenderer

/-- Embeds `SSMLRenderer.heading`: `text` is the already-rendered child text.
`break_time = BREAK_TIMES.get(level, "0ms")`, then
`f"{text}<break time=\"{break_time}\"/>\n"`. -/
def heading (text : String) (level : Nat) : String :=
  let break_time := (BREAK_TIMES level).getD "0ms"
  text ++ "<break time=\"" ++ break_time ++ "\"/>\n"

/-- Embeds `SSMLRenderer.emphasis`. -/
def emphasis (text : String) : String :=
  "<emphasis level=\"moderate\">" ++ text ++ "</emphasis>"

/-- Embeds `SSMLRenderer.strong`. -/
def strong (text : String) : String :=
  "<emphasis level=\"strong\">" ++ text ++ "</emphasis>"

/-- Embeds `SSMLRenderer.linebreak`. -/
def linebreak : String :=
  "<break time=\"" ++ LINEBREAK ++ "\"/>\n"

/-- Embeds `SSMLRenderer.thematic_break`. -/
def thematic_break : String :=
  "<break time=\"" ++ HRULE_BREAK ++ "\"/>\n"

/-- Embeds `SSMLRenderer.image`: `f"image of {title}" if title else ""`.
A Python `Optional[str]` is falsy exactly when it is `None` or `""`.
Note the title is interpolated raw (no escaping). -/
def image (_src : String) (_alt : String) (title : Option String) : String :=
  match title with
  | some t => if t = "" then "" else "image of " ++ t
  | none => ""

/-- Embeds `SSMLRenderer.paragraph`:
`f"<p>{text}<break time=\"{PARAGRAPH_BREAK}\"/></p>\n"`. -/
def paragraph (text : String) : String :=
  "<p>" ++ text ++ "<break time=\"" ++ PARAGRAPH_BREAK ++ "\"/></p>\n"

/-- Embeds `SSMLRenderer.link`: returns the rendered inner text; url and title are
discarded. -/
def link (text : String) (_url : String) (_title : Option String) : String :=
  text

/-- Embeds `SSMLRenderer.text`: `html.escape(text)`. -/
def text (s : String) : String :=
  html.escape s

/-- Embeds `SSMLRenderer.block_code`: `return self.text(code)`; the `info`
annotation is ignored. -/
def block_code (code : String) (_info : Option String) : String :=
  text code

/-- Embeds `SSMLRenderer.codespan`: `return self.text(text)`. -/
def codespan (s : String) : String :=
  text s

/-- Inherited `mistune.HTMLRenderer.block_quote` (not overridden by
`SSMLRenderer`): `'<blockquote>\n' + text + '</blockquote>\n'`. -/
def block_quote (text : String) : String :=
  "<blockquote>\n" ++ text ++ "</blockquote>\n"

/-- Inherited `mistune.HTMLRenderer.list` for an unordered list (not
overridden): `'<ul>\n' + text + '</ul>\n'`. -/
def bullet_list (text : String) : String :=
  "<ul>\n" ++ text ++ "</ul>\n"

/-- Inherited `mistune.HTMLRenderer.list` for an ordered list without a
`start` attribute (not overridden): `'<ol>\n' + text + '</ol>\n'`. -/
def ordered_list (text : String) : String :=
  "<ol>\n" ++ text ++ "</ol>\n"

/-- Inherited `mistune.HTMLRenderer.list_item` (not overridden):
`'<li>' + text + '</li>\n'`. -/
def list_item (text : String) : String :=
  "<li>" ++ text ++ "</li>\n"

end SSMLRenderer

mutual

/-- Renders one inline node: `mistune` renders the children, concatenates
them in order, and passes the resulting string to the renderer method. -/
def renderInline : Inline → String
  | .text s => SSMLRenderer.text s
  | .emphasis cs => SSMLRenderer.emphasis (renderInlines cs)
  | .strong cs => SSMLRenderer.strong (renderInlines cs)
  | .codespan s => SSMLRenderer.codespan s
  | .linebreak => SSMLRenderer.linebreak
  | .image src alt title => SSMLRenderer.image src alt title
  | .link cs url title => SSMLRenderer.link (renderInlines cs) url title

/-- Concatenation of rendered inline nodes in document order. -/
def renderInlines : List Inline → String
  | [] => ""
  | i :: is => renderInline i ++ renderInlines is

end

mutual

/-- Renders one block node through the corresponding renderer method. -/
def renderBlock : Block → String
  | .heading level cs => SSMLRenderer.heading (renderInlines cs) level
  | .paragraph cs => SSMLRenderer.paragraph (renderInlines cs)
  | .thematicBreak => SSMLRenderer.thematic_break
  | .blockCode code info => SSMLRenderer.block_code code info
  | .blockQuote bs => SSMLRenderer.block_quote (renderBlocks bs)
  | .bulletList items => SSMLRenderer.bullet_list (renderBlocks items)
  | .orderedList items => SSMLRenderer.ordered_list (renderBlocks items)
  | .listItem bs => SSMLRenderer.list_item (renderBlocks bs)

/-- Concatenation of rendered block nodes in document order. -/
def renderBlocks : List Block → String
  | [] => ""
  | b :: bs => renderBlock b ++ renderBlocks bs

end

/-- The document-level rendering of `markdown_to_ssml`: the fragments of the
parsed document concatenated in document order and wrapped as
`f"<speak>{out_text}</speak>"`, with nothing else added. -/
def renderDocument (doc : List Block) : String :=
  "<speak>" ++ renderBlocks doc ++ "</speak>"

/-- Modelled from the spec: the external, standards-compliant Markdown
parser (`mistune.create_markdown`) is a third-party dependency not under
`src/`; we model its output on the concrete scenario input the spec
exercises. `"# Title\n\nHello world."` parses to a level-1 heading with
inline text `Title` followed by a paragraph with inline text
`Hello world.`. -/
def parseMarkdown (s : String) : List Block :=
  if s = "# Title\n\nHello world." then
    [.heading 1 [.text "Title"], .paragraph [.text "Hello world."]]
  else []

/-- Embeds `markdown_to_ssml` from `src/convert.py`: parse, render, wrap. -/
def markdown_to_ssml (markdown_text : String) : String :=
  renderDocument (parseMarkdown markdown_text)

/-! ## A well-formedness checker for XML output

`scanList` runs a character-level state machine over a string: ordinary text
characters pass; `<...>` sequences are parsed as open, close or self-closing
tags and checked against a stack of open tag names; `&...;` sequences must be
entity-shaped; a raw `<` inside a tag, an unterminated tag or entity, a
malformed entity, or a mismatched close tag rejects. A string is well-formed
content when scanning it from an empty stack ends in text mode with an empty
stack: tags balance and no raw markup characters escape from text content
(raw `>` and quotes are permitted in text, as in XML character data). -/

/-- Characters allowed in a tag name. -/
def isNameChar (c : Char) : Bool := c.isAlphanum

/-- Characters allowed inside an entity reference (`&amp;`, `&#x27;`, ...). -/
def isEntChar (c : Char) : Bool := c.isAlphanum || c = '#'

/-- Scanner mode: in plain text, inside a `<...>` tag (accumulated content in
reverse), or inside an `&...;` entity (accumulated in reverse). -/
inductive Mode : Type
  | text
  | tag (acc : List Char)
  | ent (acc : List Char)
  deriving Repr, DecidableEq

/-- Scanner state: stack of currently open tag names plus the mode. -/
structure ScanSt : Type where
  stack : List String
  mode : Mode
  deriving Repr, DecidableEq

/-- Processes the content between `<` and `>` against the tag stack:
`/name` pops a matching open tag; content ending in `/` is self-closing;
otherwise the leading name is pushed. -/
def applyTag (content : List Char) (stack : List String) : Option (List String) :=
  match content with
  | '/' :: name =>
      if name ≠ [] && name.all isNameChar then
        match stack with
        | [] => none
        | t :: ts => if String.mk name = t then some ts else none
      else none
  | _ =>
      let name := content.takeWhile isNameChar
      if name = [] then none
      else if content.getLast? = some '/' then some stack
      else some (String.mk name :: stack)

/-- One character of the scan. -/
def scanStep (st : ScanSt) (c : Char) : Option ScanSt :=
  match st.mode with
  | .text =>
      if c = '<' then some ⟨st.stack, .tag []⟩
      else if c = '&' then some ⟨st.stack, .ent []⟩
      else some st
  | .tag acc =>
      if c = '>' then
        match applyTag acc.reverse st.stack with
        | some s => some ⟨s, .text⟩
        | none => none
      else if c = '<' then none
      else some ⟨st.stack, .tag (c :: acc)⟩
  | .ent acc =>
      if c = ';' then
        if acc ≠ [] && acc.all isEntChar then some ⟨st.stack, .text⟩ else none
      else if isEntChar c then some ⟨st.stack, .ent (c :: acc)⟩
      else none

/-- Runs the scanner over a character list. -/
def scanList : List Char → ScanSt → Option ScanSt
  | [], st => some st
  | c :: cs, st =>
      match scanStep st c with
      | none => none
      | some st' => scanList cs st'

/-- A string is well-formed XML content: the scan completes from the empty
state back to the empty state. -/
def wellFormedXML (s : String) : Bool :=
  scanList s.data ⟨[], .text⟩ = some ⟨[], .text⟩

/-- Balanced XML content: scanning from text mode returns to text mode and
leaves any tag stack unchanged. -/
def BalChars (l : List Char) : Prop :=
  ∀ stack : List String, scanList l ⟨stack, Mode.text⟩ = some ⟨stack, Mode.text⟩

/-! ## Counting `<p>` opening tags and paragraph nodes -/

/-- Holds when the list starts with `p>`: together with a preceding `<`
this is an occurrence of the opening tag `<p>`. -/
def opensP : List Char → Bool
  | 'p' :: '>' :: _ => true
  | _ => false

/-- Number of occurrences of the substring `<p>` (occurrences cannot
overlap, so counting starting positions counts occurrences). -/
def countP : List Char → Nat
  | [] => 0
  | c :: rest => (if c = '<' then if opensP rest then 1 else 0 else 0) + countP rest

mutual

/-- Number of paragraph nodes in a block node, nested ones included. -/
def blockParagraphs : Block → Nat
  | .paragraph _ => 1
  | .heading _ _ => 0
  | .thematicBreak => 0
  | .blockCode _ _ => 0
  | .blockQuote bs => blocksParagraphs bs
  | .bulletList items => blocksParagraphs items
  | .orderedList items => blocksParagraphs items
  | .listItem bs => blocksParagraphs bs

/-- Number of paragraph nodes in a block list. -/
def blocksParagraphs : List Block → Nat
  | [] => 0
  | b :: bs => blockParagraphs b + blocksParagraphs bs

end

/-! ## Conditions on image titles

The renderer interpolates image titles without escaping, so properties of
the output depend on which characters the titles may contain. The predicates
below require every image title in a tree to satisfy a given string
condition. -/

mutual

/-- Every image title in the inline node satisfies `ok`. -/
def inlineTitlesOK (ok : String → Bool) : Inline → Bool
  | .text _ => true
  | .codespan _ => true
  | .linebreak => true
  | .emphasis cs => inlinesTitlesOK ok cs
  | .strong cs => inlinesTitlesOK ok cs
  | .image _ _ none => true
  | .image _ _ (some t) => ok t
  | .link cs _ _ => inlinesTitlesOK ok cs

/-- Every image title in the inline list satisfies `ok`. -/
def inlinesTitlesOK (ok : String → Bool) : List Inline → Bool
  | [] => true
  | i :: is => inlineTitlesOK ok i && inlinesTitlesOK ok is

end

mutual

/-- Every image title in the block node satisfies `ok`. -/
def blockTitlesOK (ok : String → Bool) : Block → Bool
  | .heading _ cs => inlinesTitlesOK ok cs
  | .paragraph cs => inlinesTitlesOK ok cs
  | .thematicBreak => true
  | .blockCode _ _ => true
  | .blockQuote bs => blocksTitlesOK ok bs
  | .bulletList items => blocksTitlesOK ok items
  | .orderedList items => blocksTitlesOK ok items
  | .listItem bs => blocksTitlesOK ok bs

/-- Every image title in the block list satisfies `ok`. -/
def blocksTitlesOK (ok : String → Bool) : List Block → Bool
  | [] => true
  | b :: bs => blockTitlesOK ok b && blocksTitlesOK ok bs

end

/-- A string free of raw `<` and `&` (safe to place in XML text content). -/
def xmlSafe (t : String) : Bool :=
  t.data.all (fun c => c ≠ '<' && c ≠ '&')

/-- A string free of `<`. -/
def noLt (t : String) : Bool :=
  t.data.all (fun c => c ≠ '<')

/-- Test `leadsWith p l`: the list `l` starts with the pattern `p`. -/
def leadsWith : List Char → List Char → Bool
  | [], _ => true
  | _ :: _, [] => false
  | p :: ps, c :: cs => p = c && leadsWith ps cs

/-- Test `hasSub l p`: the pattern `p` occurs contiguously inside `l`. -/
def hasSub : List Char → List Char → Bool
  | [], p => p.isEmpty
  | l@(_ :: rest), p => leadsWith p l || hasSub rest p

/-- The character list starts with the body of one of the five entities
emitted by `html.escape` (`amp;`, `lt;`, `gt;`, `quot;`, `#x27;`). -/
def entHead (l : List Char) : Bool :=
  leadsWith "amp;".data l || leadsWith "lt;".data l || leadsWith "gt;".data l ||
    leadsWith "quot;".data l || leadsWith "#x27;".data l

/-- Every `&` in the list is the head of one of the five entities emitted
by `html.escape`: no raw, free-standing `&` remains. -/
def ampOK : List Char → Bool
  | [] => true
  | c :: cs => (if c = '&' then entHead cs else true) && ampOK cs

/-- Block-shape test: is a blockquote node. -/
def isBQ : Block → Bool
  | .blockQuote _ => true
  | _ => false

/-- Block-shape test: is a bullet-list node. -/
def isUL : Block → Bool
  | .bulletList _ => true
  | _ => false

/-- Block-shape test: is an ordered-list node. -/
def isOL : Block → Bool
  | .orderedList _ => true
  | _ => false

mutual

/-- Some block node in the tree (the node itself or one nested below it)
satisfies `p`. -/
def blockHasNode (p : Block → Bool) : Block → Bool
  | b@(.heading _ _) => p b
  | b@(.paragraph _) => p b
  | b@(.thematicBreak) => p b
  | b@(.blockCode _ _) => p b
  | b@(.blockQuote bs) => p b || blocksHaveNode p bs
  | b@(.bulletList items) => p b || blocksHaveNode p items
  | b@(.orderedList items) => p b || blocksHaveNode p items
  | b@(.listItem bs) => p b || blocksHaveNode p bs

/-- Some block node in the forest satisfies `p`. -/
def blocksHaveNode (p : Block → Bool) : List Block → Bool
  | [] => false
  | b :: bs => blockHasNode p b || blocksHaveNode p bs

end

/-! ## Trace model of the CLI (`main` and `get_ogg`)

File reads, Markdown parsing, the Google client construction and the
synthesis call are injected capabilities (the spec models them as external
collaborators). A run produces either `.error e` — an uncaught Python
exception aborting the process — or `.ok events`, the ordered trace of file
writes and console prints of a normal run. -/

/-- One observable side effect of a run. -/
inductive Event : Type
  | wroteText (path : String) (content : String)
  | wroteBytes (path : String) (content : List Nat)
  | printed (msg : String)
  deriving Repr, DecidableEq

/-- Embeds `os.path.splitext(p)[0]`: everything before the final extension. The
extension starts at the last `.` of the basename, provided some character
before it in the basename is not a `.` (so `.bashrc` has no extension). -/
def splitext_root (p : String) : String :=
  let rev := p.data.reverse
  let base := rev.takeWhile (fun c => c ≠ '/')
  match base.findIdx? (fun c => c = '.') with
  | none => p
  | some i =>
      if (base.drop (i + 1)).any (fun c => c ≠ '.') then
        String.mk ((rev.drop (i + 1)).reverse)
      else p

/-- Embeds `get_ogg` from `src/convert.py`. `clientInit` models
`texttospeech.TextToSpeechClient()`, constructed before the `try` block, so
a failure there propagates uncaught (`.error`). `synth` models the
`synthesize_speech` call returning audio bytes; it and the audio file write
sit inside the `try`, so any exception there is caught, the error message is
printed, and the function returns normally. -/
def get_ogg (clientInit : Except String Unit)
    (synth : String → Except String (List Nat))
    (ssml : String) (output_file : String) : Except String (List Event) :=
  match clientInit with
  | .error e => .error e
  | .ok _ =>
      match synth ssml with
      | .ok audio =>
          .ok [.wroteBytes output_file audio,
               .printed ("Audio content written to file \"" ++ output_file ++ "\"")]
      | .error e => .ok [.printed ("Error generating audio: " ++ e)]

/-- The parsed CLI arguments: one positional input file and the
`--get_ogg` flag. -/
structure Args : Type where
  input_file : String
  get_ogg : Bool

/-- Embeds `main` from `src/convert.py`: read the input file (uncaught on failure),
translate it (the external parser injected as `parse`), write the SSML file
and print a confirmation, then, only when the flag is set, call `get_ogg`.
The returned trace lists the writes and prints in program order. -/
def main (readInput : String → Except String String)
    (parse : String → List Block)
    (clientInit : Except String Unit)
    (synth : String → Except String (List Nat))
    (args : Args) : Except String (List Event) := do
  let markdown_input ← readInput args.input_file
  let ssml := renderDocument (parse markdown_input)
  let ssml_file := splitext_root args.input_file ++ ".ssml"
  let writeEvents := [Event.wroteText ssml_file ssml,
                      Event.printed ("SSML content written to file '" ++ ssml_file ++ "'")]
  if args.get_ogg then
    let oggEvents ← get_ogg clientInit synth ssml (splitext_root args.input_file ++ ".ogg")
    return writeEvents ++ oggEvents
  else
    return writeEvents

/-! ## Scanner composition lemmas -/

theorem scanList_append (a b : List Char) (st : ScanSt) :
    scanList (a ++ b) st = (scanList a st).bind fun st' => scanList b st' := by
  induction a generalizing st with
  | nil => rfl
  | cons c cs ih =>
    simp only [List.cons_append, scanList]
    cases h : scanStep st c with
    | none => rfl
    | some st' => exact ih st'

theorem balChars_append (a b : List Char) (ha : BalChars a) (hb : BalChars b) :
    BalChars (a ++ b) := by
  intro stack
  rw [scanList_append, ha stack, Option.some_bind]
  exact hb stack

/-- An opening tag, balanced content, and the matching closing material
scan to the original stack. -/
theorem balChars_wrap (op inner cl : List Char) (name : String)
    (hop : ∀ stack, scanList op ⟨stack, Mode.text⟩ = some ⟨name :: stack, Mode.text⟩)
    (hin : BalChars inner)
    (hcl : ∀ stack, scanList cl ⟨name :: stack, Mode.text⟩ = some ⟨stack, Mode.text⟩) :
    BalChars (op ++ (inner ++ cl)) := by
  intro stack
  rw [scanList_append, hop, Option.some_bind, scanList_append, hin, Option.some_bind]
  exact hcl stack

theorem balChars_plain (l : List Char) (h : ∀ c ∈ l, ¬c = '<' ∧ ¬c = '&') :
    BalChars l := by
  induction l with
  | nil => intro _; rfl
  | cons c cs ih =>
    intro stack
    obtain ⟨h1, h2⟩ := h c (by simp)
    have hrest := ih fun x hx => h x (by simp [hx])
    simp only [scanList, scanStep, if_neg h1, if_neg h2]
    exact hrest stack

theorem scanList_escapeChar (c : Char) (stack : List String) :
    scanList (escapeChar c).data ⟨stack, Mode.text⟩ = some ⟨stack, Mode.text⟩ := by
  by_cases h1 : c = '&'
  · subst h1; rfl
  by_cases h2 : c = '<'
  · subst h2; rfl
  by_cases h3 : c = '>'
  · subst h3; rfl
  by_cases h4 : c = '"'
  · subst h4; rfl
  by_cases h5 : c = '\''
  · subst h5; rfl
  have he : escapeChar c = String.mk [c] := by
    simp [escapeChar, h1, h2, h3, h4, h5]
  rw [he]
  simp [scanList, scanStep, h1, h2]

theorem balChars_escapeChars (l : List Char) : BalChars (escapeChars l) := by
  induction l with
  | nil => intro _; rfl
  | cons c cs ih =>
    intro stack
    simp only [escapeChars]
    rw [scanList_append, scanList_escapeChar c stack, Option.some_bind]
    exact ih stack

/-! Concrete scans of each tag the renderer emits, from an arbitrary
stack (all by kernel computation). -/

theorem scan_p_open (stack : List String) :
    scanList "<p>".data ⟨stack, Mode.text⟩ = some ⟨"p" :: stack, Mode.text⟩ := rfl

theorem scan_p_close (stack : List String) :
    scanList ("<break time=\"".data ++ ("100ms".data ++ "\"/></p>\n".data))
      ⟨"p" :: stack, Mode.text⟩ = some ⟨stack, Mode.text⟩ := rfl

theorem scan_em_mod_open (stack : List String) :
    scanList "<emphasis level=\"moderate\">".data ⟨stack, Mode.text⟩ =
      some ⟨"emphasis" :: stack, Mode.text⟩ := rfl

theorem scan_em_strong_open (stack : List String) :
    scanList "<emphasis level=\"strong\">".data ⟨stack, Mode.text⟩ =
      some ⟨"emphasis" :: stack, Mode.text⟩ := rfl

theorem scan_em_close (stack : List String) :
    scanList "</emphasis>".data ⟨"emphasis" :: stack, Mode.text⟩ =
      some ⟨stack, Mode.text⟩ := rfl

theorem scan_bq_open (stack : List String) :
    scanList "<blockquote>\n".data ⟨stack, Mode.text⟩ =
      some ⟨"blockquote" :: stack, Mode.text⟩ := rfl

theorem scan_bq_close (stack : List String) :
    scanList "</blockquote>\n".data ⟨"blockquote" :: stack, Mode.text⟩ =
      some ⟨stack, Mode.text⟩ := rfl

theorem scan_ul_open (stack : List String) :
    scanList "<ul>\n".data ⟨stack, Mode.text⟩ = some ⟨"ul" :: stack, Mode.text⟩ := rfl

theorem scan_ul_close (stack : List String) :
    scanList "</ul>\n".data ⟨"ul" :: stack, Mode.text⟩ = some ⟨stack, Mode.text⟩ := rfl

theorem scan_ol_open (stack : List String) :
    scanList "<ol>\n".data ⟨stack, Mode.text⟩ = some ⟨"ol" :: stack, Mode.text⟩ := rfl

theorem scan_ol_close (stack : List String) :
    scanList "</ol>\n".data ⟨"ol" :: stack, Mode.text⟩ = some ⟨stack, Mode.text⟩ := rfl

theorem scan_li_open (stack : List String) :
    scanList "<li>".data ⟨stack, Mode.text⟩ = some ⟨"li" :: stack, Mode.text⟩ := rfl

theorem scan_li_close (stack : List String) :
    scanList "</li>\n".data ⟨"li" :: stack, Mode.text⟩ = some ⟨stack, Mode.text⟩ := rfl

theorem scan_speak_open (stack : List String) :
    scanList "<speak>".data ⟨stack, Mode.text⟩ = some ⟨"speak" :: stack, Mode.text⟩ := rfl

theorem scan_speak_close (stack : List String) :
    scanList "</speak>".data ⟨"speak" :: stack, Mode.text⟩ = some ⟨stack, Mode.text⟩ := rfl

/-- The duration looked up in `BREAK_TIMES` is one of the four table
entries or the `"0ms"` default. -/
theorem breakTimes_cases (level : Nat) :
    (BREAK_TIMES level).getD "0ms" = "300ms" ∨
    (BREAK_TIMES level).getD "0ms" = "200ms" ∨
    (BREAK_TIMES level).getD "0ms" = "100ms" ∨
    (BREAK_TIMES level).getD "0ms" = "0ms" := by
  unfold BREAK_TIMES
  split_ifs <;> simp

theorem scan_heading_break (level : Nat) (stack : List String) :
    scanList ("<break time=\"" ++ (BREAK_TIMES level).getD "0ms" ++ "\"/>\n").data
      ⟨stack, Mode.text⟩ = some ⟨stack, Mode.text⟩ := by
  rcases breakTimes_cases level with h | h | h | h <;> rw [h] <;> rfl

/-! Balance of each renderer method (given balanced rendered child text). -/

theorem balChars_heading (T : String) (level : Nat) (hT : BalChars T.data) :
    BalChars (SSMLRenderer.heading T level).data := by
  have hd : (SSMLRenderer.heading T level).data =
      T.data ++ ("<break time=\"" ++ (BREAK_TIMES level).getD "0ms" ++ "\"/>\n").data := by
    simp [SSMLRenderer.heading, String.data_append]
  intro stack
  rw [hd, scanList_append, hT stack, Option.some_bind]
  exact scan_heading_break level stack

theorem balChars_paragraph (T : String) (hT : BalChars T.data) :
    BalChars (SSMLRenderer.paragraph T).data := by
  have hd : (SSMLRenderer.paragraph T).data =
      "<p>".data ++ (T.data ++ ("<break time=\"".data ++ ("100ms".data ++ "\"/></p>\n".data))) := by
    simp [SSMLRenderer.paragraph, PARAGRAPH_BREAK, String.data_append]
  rw [hd]
  exact balChars_wrap _ _ _ "p" scan_p_open hT scan_p_close

theorem balChars_emphasis (T : String) (hT : BalChars T.data) :
    BalChars (SSMLRenderer.emphasis T).data := by
  have hd : (SSMLRenderer.emphasis T).data =
      "<emphasis level=\"moderate\">".data ++ (T.data ++ "</emphasis>".data) := by
    simp [SSMLRenderer.emphasis, String.data_append]
  rw [hd]
  exact balChars_wrap _ _ _ "emphasis" scan_em_mod_open hT scan_em_close

theorem balChars_strong (T : String) (hT : BalChars T.data) :
    BalChars (SSMLRenderer.strong T).data := by
  have hd : (SSMLRenderer.strong T).data =
      "<emphasis level=\"strong\">".data ++ (T.data ++ "</emphasis>".data) := by
    simp [SSMLRenderer.strong, String.data_append]
  rw [hd]
  exact balChars_wrap _ _ _ "emphasis" scan_em_strong_open hT scan_em_close

theorem balChars_block_quote (T : String) (hT : BalChars T.data) :
    BalChars (SSMLRenderer.block_quote T).data := by
  have hd : (SSMLRenderer.block_quote T).data =
      "<blockquote>\n".data ++ (T.data ++ "</blockquote>\n".data) := by
    simp [SSMLRenderer.block_quote, String.data_append]
  rw [hd]
  exact balChars_wrap _ _ _ "blockquote" scan_bq_open hT scan_bq_close

theorem balChars_bullet_list (T : String) (hT : BalChars T.data) :
    BalChars (SSMLRenderer.bullet_list T).data := by
  have hd : (SSMLRenderer.bullet_list T).data =
      "<ul>\n".data ++ (T.data ++ "</ul>\n".data) := by
    simp [SSMLRenderer.bullet_list, String.data_append]
  rw [hd]
  exact balChars_wrap _ _ _ "ul" scan_ul_open hT scan_ul_close

theorem balChars_ordered_list (T : String) (hT : BalChars T.data) :
    BalChars (SSMLRenderer.ordered_list T).data := by
  have hd : (SSMLRenderer.ordered_list T).data =
      "<ol>\n".data ++ (T.data ++ "</ol>\n".data) := by
    simp [SSMLRenderer.ordered_list, String.data_append]
  rw [hd]
  exact balChars_wrap _ _ _ "ol" scan_ol_open hT scan_ol_close

theorem balChars_list_item (T : String) (hT : BalChars T.data) :
    BalChars (SSMLRenderer.list_item T).data := by
  have hd : (SSMLRenderer.list_item T).data =
      "<li>".data ++ (T.data ++ "</li>\n".data) := by
    simp [SSMLRenderer.list_item, String.data_append]
  rw [hd]
  exact balChars_wrap _ _ _ "li" scan_li_open hT scan_li_close

theorem xmlSafe_plain (t : String) (h : xmlSafe t = true) :
    ∀ c ∈ t.data, ¬c = '<' ∧ ¬c = '&' := by
  simp only [xmlSafe, List.all_eq_true, Bool.and_eq_true, decide_eq_true_eq] at h
  intro c hc
  exact h c hc

theorem balChars_image (src alt : String) (title : Option String)
    (h : (match title with | some t => xmlSafe t | none => true) = true) :
    BalChars (SSMLRenderer.image src alt title).data := by
  match title with
  | none => intro _; rfl
  | some t =>
    by_cases ht : t = ""
    · subst ht; intro _; rfl
    · have hd : (SSMLRenderer.image src alt (some t)).data =
          "image of ".data ++ t.data := by
        simp [SSMLRenderer.image, ht, String.data_append]
      rw [hd]
      exact balChars_append _ _ (balChars_plain _ (by decide)) (balChars_plain _ (xmlSafe_plain t h))

/-! ## Properties of the escaping function -/

theorem escapeChar_no_raw (c : Char) :
    ∀ x ∈ (escapeChar c).data, ¬x = '<' ∧ ¬x = '>' ∧ ¬x = '"' ∧ ¬x = '\'' := by
  by_cases h1 : c = '&'
  · subst h1; decide
  by_cases h2 : c = '<'
  · subst h2; decide
  by_cases h3 : c = '>'
  · subst h3; decide
  by_cases h4 : c = '"'
  · subst h4; decide
  by_cases h5 : c = '\''
  · subst h5; decide
  have he : escapeChar c = String.mk [c] := by
    simp [escapeChar, h1, h2, h3, h4, h5]
  rw [he]
  intro x hx
  have : x = c := by simpa using hx
  subst this
  exact ⟨h2, h3, h4, h5⟩

theorem escapeChars_no_raw (l : List Char) :
    ∀ x ∈ escapeChars l, ¬x = '<' ∧ ¬x = '>' ∧ ¬x = '"' ∧ ¬x = '\'' := by
  induction l with
  | nil => simp [escapeChars]
  | cons c cs ih =>
    intro x hx
    rw [escapeChars] at hx
    rcases List.mem_append.mp hx with hx | hx
    · exact escapeChar_no_raw c x hx
    · exact ih x hx

theorem ampOK_escapeChars (l : List Char) : ampOK (escapeChars l) = true := by
  induction l with
  | nil => rfl
  | cons c cs ih =>
    rw [escapeChars]
    by_cases h1 : c = '&'
    · subst h1
      simpa [escapeChar, ampOK, entHead, leadsWith] using ih
    by_cases h2 : c = '<'
    · subst h2
      simpa [escapeChar, ampOK, entHead, leadsWith] using ih
    by_cases h3 : c = '>'
    · subst h3
      simpa [escapeChar, ampOK, entHead, leadsWith] using ih
    by_cases h4 : c = '"'
    · subst h4
      simpa [escapeChar, ampOK, entHead, leadsWith] using ih
    by_cases h5 : c = '\''
    · subst h5
      simpa [escapeChar, ampOK, entHead, leadsWith] using ih
    have he : escapeChar c = String.mk [c] := by
      simp [escapeChar, h1, h2, h3, h4, h5]
    rw [he]
    simpa [ampOK, if_neg h1] using ih

theorem escapeChar_length_pos (c : Char) : 1 ≤ (escapeChar c).data.length := by
  by_cases h1 : c = '&'
  · subst h1; decide
  by_cases h2 : c = '<'
  · subst h2; decide
  by_cases h3 : c = '>'
  · subst h3; decide
  by_cases h4 : c = '"'
  · subst h4; decide
  by_cases h5 : c = '\''
  · subst h5; decide
  have he : escapeChar c = String.mk [c] := by
    simp [escapeChar, h1, h2, h3, h4, h5]
  rw [he]; exact Nat.le_refl 1

theorem escapeChar_length_escapable (c : Char) (h : escapable c = true) :
    2 ≤ (escapeChar c).data.length := by
  simp only [escapable, Bool.or_eq_true, decide_eq_true_eq] at h
  rcases h with ((((h | h) | h) | h) | h) <;> subst h <;> decide

theorem escapeChars_length_ge (l : List Char) : l.length ≤ (escapeChars l).length := by
  induction l with
  | nil => simp [escapeChars]
  | cons c cs ih =>
    rw [escapeChars, List.length_append, List.length_cons]
    have := escapeChar_length_pos c
    omega

theorem escapeChars_length_strict (l : List Char)
    (h : ∃ c ∈ l, escapable c = true) : l.length < (escapeChars l).length := by
  induction l with
  | nil => simp at h
  | cons c cs ih =>
    rw [escapeChars, List.length_append, List.length_cons]
    rcases h with ⟨x, hx, hesc⟩
    rcases List.mem_cons.mp hx with rfl | hx
    · have h2 := escapeChar_length_escapable x hesc
      have h3 := escapeChars_length_ge cs
      omega
    · have h2 := ih ⟨x, hx, hesc⟩
      have h3 := escapeChar_length_pos c
      omega

theorem amp_mem_escapeChar (c : Char) (h : escapable c = true) :
    '&' ∈ (escapeChar c).data := by
  simp only [escapable, Bool.or_eq_true, decide_eq_true_eq] at h
  rcases h with ((((h | h) | h) | h) | h) <;> subst h <;> decide

theorem amp_mem_escapeChars (l : List Char) (h : ∃ c ∈ l, escapable c = true) :
    '&' ∈ escapeChars l := by
  induction l with
  | nil => simp at h
  | cons c cs ih =>
    rw [escapeChars]
    rcases h with ⟨x, hx, hesc⟩
    rcases List.mem_cons.mp hx with rfl | hx
    · exact List.mem_append.mpr (Or.inl (amp_mem_escapeChar x hesc))
    · exact List.mem_append.mpr (Or.inr (ih ⟨x, hx, hesc⟩))

mutual

theorem renderInline_bal (i : Inline) (h : inlineTitlesOK xmlSafe i = true) :
    BalChars (renderInline i).data := by
  cases i with
  | text s =>
    simp only [renderInline]
    exact balChars_escapeChars s.data
  | codespan s =>
    simp only [renderInline]
    exact balChars_escapeChars s.data
  | linebreak =>
    simp only [renderInline]
    intro _; rfl
  | emphasis cs =>
    have hcs : inlinesTitlesOK xmlSafe cs = true := by simpa [inlineTitlesOK] using h
    simp only [renderInline]
    exact balChars_emphasis _ (renderInlines_bal cs hcs)
  | strong cs =>
    have hcs : inlinesTitlesOK xmlSafe cs = true := by simpa [inlineTitlesOK] using h
    simp only [renderInline]
    exact balChars_strong _ (renderInlines_bal cs hcs)
  | image src alt title =>
    simp only [renderInline]
    apply balChars_image
    cases title with
    | none => rfl
    | some t => simpa [inlineTitlesOK] using h
  | link cs url title =>
    have hcs : inlinesTitlesOK xmlSafe cs = true := by simpa [inlineTitlesOK] using h
    simp only [renderInline]
    exact renderInlines_bal cs hcs

theorem renderInlines_bal (is : List Inline) (h : inlinesTitlesOK xmlSafe is = true) :
    BalChars (renderInlines is).data := by
  cases is with
  | nil =>
    simp only [renderInlines]
    intro _; rfl
  | cons i tl =>
    rw [inlinesTitlesOK, Bool.and_eq_true] at h
    have hd : (renderInlines (i :: tl)).data =
        (renderInline i).data ++ (renderInlines tl).data := by
      simp [renderInlines, String.data_append]
    rw [hd]
    exact balChars_append _ _ (renderInline_bal i h.1) (renderInlines_bal tl h.2)

end

mutual

theorem renderBlock_bal (b : Block) (h : blockTitlesOK xmlSafe b = true) :
    BalChars (renderBlock b).data := by
  cases b with
  | heading level cs =>
    have hcs : inlinesTitlesOK xmlSafe cs = true := by simpa [blockTitlesOK] using h
    simp only [renderBlock]
    exact balChars_heading _ level (renderInlines_bal cs hcs)
  | paragraph cs =>
    have hcs : inlinesTitlesOK xmlSafe cs = true := by simpa [blockTitlesOK] using h
    simp only [renderBlock]
    exact balChars_paragraph _ (renderInlines_bal cs hcs)
  | thematicBreak =>
    simp only [renderBlock]
    intro _; rfl
  | blockCode code info =>
    simp only [renderBlock]
    exact balChars_escapeChars code.data
  | blockQuote bs =>
    have hbs : blocksTitlesOK xmlSafe bs = true := by simpa [blockTitlesOK] using h
    simp only [renderBlock]
    exact balChars_block_quote _ (renderBlocks_bal bs hbs)
  | bulletList items =>
    have hbs : blocksTitlesOK xmlSafe items = true := by simpa [blockTitlesOK] using h
    simp only [renderBlock]
    exact balChars_bullet_list _ (renderBlocks_bal items hbs)
  | orderedList items =>
    have hbs : blocksTitlesOK xmlSafe items = true := by simpa [blockTitlesOK] using h
    simp only [renderBlock]
    exact balChars_ordered_list _ (renderBlocks_bal items hbs)
  | listItem bs =>
    have hbs : blocksTitlesOK xmlSafe bs = true := by simpa [blockTitlesOK] using h
    simp only [renderBlock]
    exact balChars_list_item _ (renderBlocks_bal bs hbs)

theorem renderBlocks_bal (bs : List Block) (h : blocksTitlesOK xmlSafe bs = true) :
    BalChars (renderBlocks bs).data := by
  cases bs with
  | nil =>
    simp only [renderBlocks]
    intro _; rfl
  | cons b tl =>
    rw [blocksTitlesOK, Bool.and_eq_true] at h
    have hd : (renderBlocks (b :: tl)).data =
        (renderBlock b).data ++ (renderBlocks tl).data := by
      simp [renderBlocks, String.data_append]
    rw [hd]
    exact balChars_append _ _ (renderBlock_bal b h.1) (renderBlocks_bal tl h.2)

end

/-! ## Counting `<p>` occurrences in the output -/

theorem countP_append_no_lt (l t : List Char) (h : ∀ c ∈ l, ¬c = '<') :
    countP (l ++ t) = countP t := by
  induction l with
  | nil => rfl
  | cons c cs ih =>
    have h1 : ¬c = '<' := h c (by simp)
    simp only [List.cons_append, countP, if_neg h1, List.append_eq]
    rw [ih fun x hx => h x (by simp [hx])]
    exact Nat.zero_add _

theorem noLt_plain (t : String) (h : noLt t = true) : ∀ c ∈ t.data, ¬c = '<' := by
  simp only [noLt, List.all_eq_true, decide_eq_true_eq] at h
  exact h

theorem breakDur_no_lt (level : Nat) :
    ∀ c ∈ ((BREAK_TIMES level).getD "0ms").data, ¬c = '<' := by
  rcases breakTimes_cases level with h | h | h | h <;> rw [h] <;> decide

theorem cntP_p_open (t : List Char) : countP ("<p>".data ++ t) = 1 + countP t := by
  simp [countP, opensP]

theorem cnt0_break_open (t : List Char) : countP ("<break time=\"".data ++ t) = countP t := by
  simp [countP, opensP]

theorem cnt0_close_p (t : List Char) : countP ("\"/></p>\n".data ++ t) = countP t := by
  simp [countP, opensP]

theorem cnt0_close_tag (t : List Char) : countP ("\"/>\n".data ++ t) = countP t := by
  simp [countP, opensP]

theorem cnt0_em_mod (t : List Char) :
    countP ("<emphasis level=\"moderate\">".data ++ t) = countP t := by
  simp [countP, opensP]

theorem cnt0_em_strong (t : List Char) :
    countP ("<emphasis level=\"strong\">".data ++ t) = countP t := by
  simp [countP, opensP]

theorem cnt0_em_close (t : List Char) : countP ("</emphasis>".data ++ t) = countP t := by
  simp [countP, opensP]

theorem cnt0_bq_open (t : List Char) : countP ("<blockquote>\n".data ++ t) = countP t := by
  simp [countP, opensP]

theorem cnt0_bq_close (t : List Char) : countP ("</blockquote>\n".data ++ t) = countP t := by
  simp [countP, opensP]

theorem cnt0_ul_open (t : List Char) : countP ("<ul>\n".data ++ t) = countP t := by
  simp [countP, opensP]

theorem cnt0_ul_close (t : List Char) : countP ("</ul>\n".data ++ t) = countP t := by
  simp [countP, opensP]

theorem cnt0_ol_open (t : List Char) : countP ("<ol>\n".data ++ t) = countP t := by
  simp [countP, opensP]

theorem cnt0_ol_close (t : List Char) : countP ("</ol>\n".data ++ t) = countP t := by
  simp [countP, opensP]

theorem cnt0_li_open (t : List Char) : countP ("<li>".data ++ t) = countP t := by
  simp [countP, opensP]

theorem cnt0_li_close (t : List Char) : countP ("</li>\n".data ++ t) = countP t := by
  simp [countP, opensP]

theorem cnt0_speak_open (t : List Char) : countP ("<speak>".data ++ t) = countP t := by
  simp [countP, opensP]

theorem cnt0_linebreak (t : List Char) :
    countP (SSMLRenderer.linebreak.data ++ t) = countP t := by
  simp [SSMLRenderer.linebreak, LINEBREAK, String.data_append, countP, opensP]

theorem cnt0_thematic (t : List Char) :
    countP (SSMLRenderer.thematic_break.data ++ t) = countP t := by
  simp [SSMLRenderer.thematic_break, HRULE_BREAK, String.data_append, countP, opensP]

mutual

theorem renderInline_cnt (i : Inline) (h : inlineTitlesOK noLt i = true) :
    ∀ t, countP ((renderInline i).data ++ t) = countP t := by
  cases i with
  | text s =>
    intro t
    simp only [renderInline]
    exact countP_append_no_lt _ t fun c hc => (escapeChars_no_raw s.data c hc).1
  | codespan s =>
    intro t
    simp only [renderInline]
    exact countP_append_no_lt _ t fun c hc => (escapeChars_no_raw s.data c hc).1
  | linebreak =>
    intro t
    simp only [renderInline]
    exact cnt0_linebreak t
  | emphasis cs =>
    have hcs : inlinesTitlesOK noLt cs = true := by simpa [inlineTitlesOK] using h
    intro t
    simp only [renderInline]
    have hd : (SSMLRenderer.emphasis (renderInlines cs)).data =
        "<emphasis level=\"moderate\">".data ++
          ((renderInlines cs).data ++ "</emphasis>".data) := by
      simp [SSMLRenderer.emphasis, String.data_append]
    rw [hd]
    simp only [List.append_assoc]
    rw [cnt0_em_mod, renderInlines_cnt cs hcs, cnt0_em_close]
  | strong cs =>
    have hcs : inlinesTitlesOK noLt cs = true := by simpa [inlineTitlesOK] using h
    intro t
    simp only [renderInline]
    have hd : (SSMLRenderer.strong (renderInlines cs)).data =
        "<emphasis level=\"strong\">".data ++
          ((renderInlines cs).data ++ "</emphasis>".data) := by
      simp [SSMLRenderer.strong, String.data_append]
    rw [hd]
    simp only [List.append_assoc]
    rw [cnt0_em_strong, renderInlines_cnt cs hcs, cnt0_em_close]
  | image src alt title =>
    intro t
    simp only [renderInline]
    match title with
    | none => rfl
    | some s =>
      have hnl : noLt s = true := by simpa [inlineTitlesOK] using h
      by_cases hs : s = ""
      · subst hs; rfl
      · have hd : (SSMLRenderer.image src alt (some s)).data =
            "image of ".data ++ s.data := by
          simp [SSMLRenderer.image, hs, String.data_append]
        rw [hd]
        simp only [List.append_assoc]
        rw [countP_append_no_lt "image of ".data _ (by decide)]
        exact countP_append_no_lt _ t (noLt_plain s hnl)
  | link cs url title =>
    have hcs : inlinesTitlesOK noLt cs = true := by simpa [inlineTitlesOK] using h
    intro t
    simp only [renderInline]
    exact renderInlines_cnt cs hcs t

theorem renderInlines_cnt (is : List Inline) (h : inlinesTitlesOK noLt is = true) :
    ∀ t, countP ((renderInlines is).data ++ t) = countP t := by
  cases is with
  | nil => intro t; rfl
  | cons i tl =>
    rw [inlinesTitlesOK, Bool.and_eq_true] at h
    intro t
    have hd : (renderInlines (i :: tl)).data =
        (renderInline i).data ++ (renderInlines tl).data := by
      simp [renderInlines, String.data_append]
    rw [hd]
    simp only [List.append_assoc]
    rw [renderInline_cnt i h.1, renderInlines_cnt tl h.2]

end

mutual

theorem renderBlock_cnt (b : Block) (h : blockTitlesOK noLt b = true) :
    ∀ t, countP ((renderBlock b).data ++ t) = blockParagraphs b + countP t := by
  cases b with
  | heading level cs =>
    have hcs : inlinesTitlesOK noLt cs = true := by simpa [blockTitlesOK] using h
    intro t
    simp only [renderBlock]
    have hd : (SSMLRenderer.heading (renderInlines cs) level).data =
        (renderInlines cs).data ++ ("<break time=\"".data ++
          (((BREAK_TIMES level).getD "0ms").data ++ "\"/>\n".data)) := by
      simp [SSMLRenderer.heading, String.data_append]
    rw [hd]
    simp only [List.append_assoc]
    rw [renderInlines_cnt cs hcs, cnt0_break_open,
      countP_append_no_lt _ _ (breakDur_no_lt level), cnt0_close_tag]
    simp [blockParagraphs]
  | paragraph cs =>
    have hcs : inlinesTitlesOK noLt cs = true := by simpa [blockTitlesOK] using h
    intro t
    simp only [renderBlock]
    have hd : (SSMLRenderer.paragraph (renderInlines cs)).data =
        "<p>".data ++ ((renderInlines cs).data ++ ("<break time=\"".data ++
          ("100ms".data ++ "\"/></p>\n".data))) := by
      simp [SSMLRenderer.paragraph, PARAGRAPH_BREAK, String.data_append]
    rw [hd]
    simp only [List.append_assoc]
    rw [cntP_p_open, renderInlines_cnt cs hcs, cnt0_break_open,
      countP_append_no_lt "100ms".data _ (by decide), cnt0_close_p]
    simp [blockParagraphs]
  | thematicBreak =>
    intro t
    simp only [renderBlock]
    rw [cnt0_thematic]
    simp [blockParagraphs]
  | blockCode code info =>
    intro t
    simp only [renderBlock]
    have hc : countP ((SSMLRenderer.block_code code info).data ++ t) = countP t :=
      countP_append_no_lt _ t fun c hc => (escapeChars_no_raw code.data c hc).1
    rw [hc]
    simp [blockParagraphs]
  | blockQuote bs =>
    have hbs : blocksTitlesOK noLt bs = true := by simpa [blockTitlesOK] using h
    intro t
    simp only [renderBlock]
    have hd : (SSMLRenderer.block_quote (renderBlocks bs)).data =
        "<blockquote>\n".data ++ ((renderBlocks bs).data ++ "</blockquote>\n".data) := by
      simp [SSMLRenderer.block_quote, String.data_append]
    rw [hd]
    simp only [List.append_assoc]
    rw [cnt0_bq_open, renderBlocks_cnt bs hbs, cnt0_bq_close]
    simp [blockParagraphs]
  | bulletList items =>
    have hbs : blocksTitlesOK noLt items = true := by simpa [blockTitlesOK] using h
    intro t
    simp only [renderBlock]
    have hd : (SSMLRenderer.bullet_list (renderBlocks items)).data =
        "<ul>\n".data ++ ((renderBlocks items).data ++ "</ul>\n".data) := by
      simp [SSMLRenderer.bullet_list, String.data_append]
    rw [hd]
    simp only [List.append_assoc]
    rw [cnt0_ul_open, renderBlocks_cnt items hbs, cnt0_ul_close]
    simp [blockParagraphs]
  | orderedList items =>
    have hbs : blocksTitlesOK noLt items = true := by simpa [blockTitlesOK] using h
    intro t
    simp only [renderBlock]
    have hd : (SSMLRenderer.ordered_list (renderBlocks items)).data =
        "<ol>\n".data ++ ((renderBlocks items).data ++ "</ol>\n".data) := by
      simp [SSMLRenderer.ordered_list, String.data_append]
    rw [hd]
    simp only [List.append_assoc]
    rw [cnt0_ol_open, renderBlocks_cnt items hbs, cnt0_ol_close]
    simp [blockParagraphs]
  | listItem bs =>
    have hbs : blocksTitlesOK noLt bs = true := by simpa [blockTitlesOK] using h
    intro t
    simp only [renderBlock]
    have hd : (SSMLRenderer.list_item (renderBlocks bs)).data =
        "<li>".data ++ ((renderBlocks bs).data ++ "</li>\n".data) := by
      simp [SSMLRenderer.list_item, String.data_append]
    rw [hd]
    simp only [List.append_assoc]
    rw [cnt0_li_open, renderBlocks_cnt bs hbs, cnt0_li_close]
    simp [blockParagraphs]

theorem renderBlocks_cnt (bs : List Block) (h : blocksTitlesOK noLt bs = true) :
    ∀ t, countP ((renderBlocks bs).data ++ t) = blocksParagraphs bs + countP t := by
  cases bs with
  | nil =>
    intro t
    simp only [renderBlocks]
    simp [blocksParagraphs, countP]
  | cons b tl =>
    rw [blocksTitlesOK, Bool.and_eq_true] at h
    intro t
    have hd : (renderBlocks (b :: tl)).data =
        (renderBlock b).data ++ (renderBlocks tl).data := by
      simp [renderBlocks, String.data_append]
    rw [hd]
    simp only [List.append_assoc]
    rw [renderBlock_cnt b h.1, renderBlocks_cnt tl h.2]
    simp only [blocksParagraphs]
    omega

end

/-! ## Substring occurrence lemmas -/

theorem hasSub_nil_pat (l : List Char) : hasSub l [] = true := by
  cases l with
  | nil => rfl
  | cons c cs => simp [hasSub, leadsWith]

theorem leadsWith_append_ext (p l b : List Char) (h : leadsWith p l = true) :
    leadsWith p (l ++ b) = true := by
  induction p generalizing l with
  | nil => rfl
  | cons x xs ih =>
    cases l with
    | nil => simp [leadsWith] at h
    | cons c cs =>
      rw [leadsWith, Bool.and_eq_true] at h
      simp only [List.cons_append, leadsWith, Bool.and_eq_true]
      exact ⟨h.1, ih cs h.2⟩

theorem leadsWith_hasSub (p l : List Char) (h : leadsWith p l = true) :
    hasSub l p = true := by
  cases l with
  | nil =>
    cases p with
    | nil => rfl
    | cons x xs => simp [leadsWith] at h
  | cons c cs => simp [hasSub, h]

theorem hasSub_append_right (a b p : List Char) (h : hasSub b p = true) :
    hasSub (a ++ b) p = true := by
  induction a with
  | nil => simpa using h
  | cons c cs ih => simp [hasSub, ih]

theorem hasSub_append_left (a b p : List Char) (h : hasSub a p = true) :
    hasSub (a ++ b) p = true := by
  induction a with
  | nil =>
    have hp : p = [] := by simpa [hasSub, List.isEmpty_iff] using h
    subst hp
    exact hasSub_nil_pat _
  | cons c cs ih =>
    rw [hasSub, Bool.or_eq_true] at h
    rcases h with h | h
    · have := leadsWith_append_ext p (c :: cs) b h
      simpa [hasSub] using Or.inl this
    · simp [hasSub, ih h]

/-- A blockquote node's fragment begins with the inherited `<blockquote>`
markup. -/
theorem bq_leads (b : Block) (h : isBQ b = true) :
    leadsWith "<blockquote>".data (renderBlock b).data = true := by
  cases b with
  | blockQuote bs => simp only [renderBlock]; rfl
  | heading l cs => simp [isBQ] at h
  | paragraph cs => simp [isBQ] at h
  | thematicBreak => simp [isBQ] at h
  | blockCode c i => simp [isBQ] at h
  | bulletList items => simp [isBQ] at h
  | orderedList items => simp [isBQ] at h
  | listItem bs => simp [isBQ] at h

/-- A bullet-list node's fragment begins with the inherited `<ul>` markup. -/
theorem ul_leads (b : Block) (h : isUL b = true) :
    leadsWith "<ul>".data (renderBlock b).data = true := by
  cases b with
  | bulletList items => simp only [renderBlock]; rfl
  | heading l cs => simp [isUL] at h
  | paragraph cs => simp [isUL] at h
  | thematicBreak => simp [isUL] at h
  | blockCode c i => simp [isUL] at h
  | blockQuote bs => simp [isUL] at h
  | orderedList items => simp [isUL] at h
  | listItem bs => simp [isUL] at h

/-- An ordered-list node's fragment begins with the inherited `<ol>`
markup. -/
theorem ol_leads (b : Block) (h : isOL b = true) :
    leadsWith "<ol>".data (renderBlock b).data = true := by
  cases b with
  | orderedList items => simp only [renderBlock]; rfl
  | heading l cs => simp [isOL] at h
  | paragraph cs => simp [isOL] at h
  | thematicBreak => simp [isOL] at h
  | blockCode c i => simp [isOL] at h
  | blockQuote bs => simp [isOL] at h
  | bulletList items => simp [isOL] at h
  | listItem bs => simp [isOL] at h

mutual

theorem renderBlock_hasSub (p : Block → Bool) (pat : List Char)
    (hstart : ∀ x, p x = true → leadsWith pat (renderBlock x).data = true)
    (b : Block) (hq : blockHasNode p b = true) :
    hasSub (renderBlock b).data pat = true := by
  by_cases hp : p b = true
  · exact leadsWith_hasSub _ _ (hstart b hp)
  · cases b with
    | heading level cs => rw [blockHasNode] at hq; exact absurd hq hp
    | paragraph cs => rw [blockHasNode] at hq; exact absurd hq hp
    | thematicBreak => rw [blockHasNode] at hq; exact absurd hq hp
    | blockCode code info => rw [blockHasNode] at hq; exact absurd hq hp
    | blockQuote bs =>
      have hbs : blocksHaveNode p bs = true := by
        rw [blockHasNode, Bool.or_eq_true] at hq
        exact hq.resolve_left hp
      simp only [renderBlock]
      have hd : (SSMLRenderer.block_quote (renderBlocks bs)).data =
          "<blockquote>\n".data ++ ((renderBlocks bs).data ++ "</blockquote>\n".data) := by
        simp [SSMLRenderer.block_quote, String.data_append]
      rw [hd]
      exact hasSub_append_right _ _ _
        (hasSub_append_left _ _ _ (renderBlocks_hasSub p pat hstart bs hbs))
    | bulletList items =>
      have hbs : blocksHaveNode p items = true := by
        rw [blockHasNode, Bool.or_eq_true] at hq
        exact hq.resolve_left hp
      simp only [renderBlock]
      have hd : (SSMLRenderer.bullet_list (renderBlocks items)).data =
          "<ul>\n".data ++ ((renderBlocks items).data ++ "</ul>\n".data) := by
        simp [SSMLRenderer.bullet_list, String.data_append]
      rw [hd]
      exact hasSub_append_right _ _ _
        (hasSub_append_left _ _ _ (renderBlocks_hasSub p pat hstart items hbs))
    | orderedList items =>
      have hbs : blocksHaveNode p items = true := by
        rw [blockHasNode, Bool.or_eq_true] at hq
        exact hq.resolve_left hp
      simp only [renderBlock]
      have hd : (SSMLRenderer.ordered_list (renderBlocks items)).data =
          "<ol>\n".data ++ ((renderBlocks items).data ++ "</ol>\n".data) := by
        simp [SSMLRenderer.ordered_list, String.data_append]
      rw [hd]
      exact hasSub_append_right _ _ _
        (hasSub_append_left _ _ _ (renderBlocks_hasSub p pat hstart items hbs))
    | listItem bs =>
      have hbs : blocksHaveNode p bs = true := by
        rw [blockHasNode, Bool.or_eq_true] at hq
        exact hq.resolve_left hp
      simp only [renderBlock]
      have hd : (SSMLRenderer.list_item (renderBlocks bs)).data =
          "<li>".data ++ ((renderBlocks bs).data ++ "</li>\n".data) := by
        simp [SSMLRenderer.list_item, String.data_append]
      rw [hd]
      exact hasSub_append_right _ _ _
        (hasSub_append_left _ _ _ (renderBlocks_hasSub p pat hstart bs hbs))

theorem renderBlocks_hasSub (p : Block → Bool) (pat : List Char)
    (hstart : ∀ x, p x = true → leadsWith pat (renderBlock x).data = true)
    (bs : List Block) (hq : blocksHaveNode p bs = true) :
    hasSub (renderBlocks bs).data pat = true := by
  cases bs with
  | nil => simp [blocksHaveNode] at hq
  | cons b tl =>
    rw [blocksHaveNode, Bool.or_eq_true] at hq
    have hd : (renderBlocks (b :: tl)).data =
        (renderBlock b).data ++ (renderBlocks tl).data := by
      simp [renderBlocks, String.data_append]
    rw [hd]
    rcases hq with hq | hq
    · exact hasSub_append_left _ _ _ (renderBlock_hasSub p pat hstart b hq)
    · exact hasSub_append_right _ _ _ (renderBlocks_hasSub p pat hstart tl hq)

end

/-! ## Claims -/

/-- C1 counterexample: the claim fails as stated. An image title is
interpolated into the fragment without escaping (`SSMLRenderer.image`), so a
title containing a raw `<` makes the concatenated output ill-formed XML. -/
theorem C1_counterexample :
    wellFormedXML
      (renderDocument [Block.paragraph [Inline.image "url" "alt" (some "a<b")]]) = false := by
  decide

/-- C1 (amended): for every input Markdown node tree in which every image
title is free of raw `<` and `&`, the concatenation of the SSML fragments in
traversal order, wrapped in the `<speak>` envelope, is well-formed XML — for
every text, url and code content (those are escaped or discarded; only image
titles are interpolated raw). -/
theorem C1_wellformed_of_safe_titles (doc : List Block)
    (h : blocksTitlesOK xmlSafe doc = true) :
    wellFormedXML (renderDocument doc) = true := by
  have hb : BalChars (renderBlocks doc).data := renderBlocks_bal doc h
  have hd : (renderDocument doc).data =
      "<speak>".data ++ ((renderBlocks doc).data ++ "</speak>".data) := by
    simp [renderDocument, String.data_append]
  simp only [wellFormedXML, hd, decide_eq_true_eq]
  rw [scanList_append, scan_speak_open, Option.some_bind,
    scanList_append, hb ["speak"], Option.some_bind]
  exact scan_speak_close []

/-- Witness for C1 (amended) on a document exercising text escaping, nested
emphasis, a titled image, code and an inherited list. -/
theorem C1_wellformed_of_safe_titles_witness :
    blocksTitlesOK xmlSafe
        [Block.heading 1 [Inline.text "T"],
         Block.paragraph [Inline.emphasis [Inline.text "a&b"],
                          Inline.image "u" "alt" (some "nice pic")],
         Block.blockCode "if x<1:" none,
         Block.bulletList [Block.listItem [Block.paragraph [Inline.text "x"]]]] = true ∧
    wellFormedXML (renderDocument
        [Block.heading 1 [Inline.text "T"],
         Block.paragraph [Inline.emphasis [Inline.text "a&b"],
                          Inline.image "u" "alt" (some "nice pic")],
         Block.blockCode "if x<1:" none,
         Block.bulletList [Block.listItem [Block.paragraph [Inline.text "x"]]]] ) = true :=
  ⟨by decide, C1_wellformed_of_safe_titles _ (by decide)⟩

/-- C2: `translate` applied to the Markdown source `"# Title\n\nHello world."`
returns exactly
`<speak>Title<break time="300ms"/>\n<p>Hello world.<break time="100ms"/></p>\n</speak>`,
with no enclosing whitespace added around the fragments inside the `<speak>`
envelope. -/
theorem C2_scenario_title_hello :
    markdown_to_ssml "# Title\n\nHello world." =
      "<speak>Title<break time=\"300ms\"/>\n<p>Hello world.<break time=\"100ms\"/></p>\n</speak>" := by
  decide

/-- C3: for every heading node with rendered child text `T` and level `L`,
the rendered fragment is `T` followed by `<break time="{D}"/>` followed by a
newline, where `D` is `300ms` for `L=1`, `200ms` for `L=2`, `100ms` for
`L=3`, `0ms` for `L=4`, and `0ms` for every other level. -/
theorem C3_heading_break_table (T : String) (L : Nat) :
    SSMLRenderer.heading T L =
      T ++ "<break time=\"" ++
        (if L = 1 then "300ms" else if L = 2 then "200ms"
         else if L = 3 then "100ms" else if L = 4 then "0ms" else "0ms") ++
      "\"/>\n" := by
  simp only [SSMLRenderer.heading, BREAK_TIMES]
  split_ifs <;> rfl

/-- C5: an image node renders as `image of {title}` exactly when the title
is present and non-empty, as the empty string otherwise, and the fragment
never depends on `src` or `alt`. -/
theorem C5_image_renders_title_only (src alt : String) (title : Option String) :
    (∀ t : String, title = some t → t ≠ "" →
        SSMLRenderer.image src alt title = "image of " ++ t) ∧
    (title = none → SSMLRenderer.image src alt title = "") ∧
    (title = some "" → SSMLRenderer.image src alt title = "") ∧
    (∀ src' alt' : String,
        SSMLRenderer.image src alt title = SSMLRenderer.image src' alt' title) := by
  refine ⟨?_, ?_, ?_, ?_⟩
  · rintro t rfl ht
    simp [SSMLRenderer.image, ht]
  · rintro rfl; rfl
  · rintro rfl; rfl
  · intro _ _; rfl

/-- Witness for C5 at the spec's Scenario 3 input. -/
theorem C5_image_renders_title_only_witness :
    SSMLRenderer.image "src" "alt" (some "My Title") = "image of My Title" ∧
    SSMLRenderer.image "src" "alt" none = "" := by
  constructor
  · exact (C5_image_renders_title_only "src" "alt" (some "My Title")).1
      "My Title" rfl (by decide)
  · exact (C5_image_renders_title_only "src" "alt" none).2.1 rfl

/-- C8: code spans render identically to plain text (XML-escaped, no extra
markup), and block code renders independently of its info/language
annotation, equal to the escaped code. -/
theorem C8_code_rendered_as_text (s c : String) (info info' : Option String) :
    SSMLRenderer.codespan s = SSMLRenderer.text s ∧
    SSMLRenderer.block_code c info = SSMLRenderer.block_code c info' ∧
    SSMLRenderer.block_code c info = SSMLRenderer.text c :=
  ⟨rfl, rfl, rfl⟩

/-- C4: for every plain-text node whose raw content contains any of
`&`, `<`, `>`, `"`, `'`, the rendered fragment never contains a raw
`<`, `>`, `"` or `'`, and every `&` in it is the head of one of the five
escaped entity forms (no raw character survives). -/
theorem C4_text_escapes_specials (s : String)
    (_h : ∃ c ∈ s.data, escapable c = true) :
    (∀ x ∈ (SSMLRenderer.text s).data, ¬x = '<' ∧ ¬x = '>' ∧ ¬x = '"' ∧ ¬x = '\'') ∧
    ampOK (SSMLRenderer.text s).data = true :=
  ⟨escapeChars_no_raw s.data, ampOK_escapeChars s.data⟩

/-- Witness for C4 at the input `a<b&c'd`. -/
theorem C4_text_escapes_specials_witness :
    (∃ c ∈ ("a<b&c'd" : String).data, escapable c = true) ∧
    ((∀ x ∈ (SSMLRenderer.text "a<b&c'd").data,
        ¬x = '<' ∧ ¬x = '>' ∧ ¬x = '"' ∧ ¬x = '\'') ∧
      ampOK (SSMLRenderer.text "a<b&c'd").data = true) :=
  ⟨by decide, C4_text_escapes_specials "a<b&c'd" (by decide)⟩

/-- C7: the escaping step is not idempotent — for every string containing
at least one escapable character, escaping the already-escaped string
changes it again (the `&` of each entity is itself re-escaped; the renderer
defines no unescape step). -/
theorem C7_escape_not_idempotent (s : String)
    (h : ∃ c ∈ s.data, escapable c = true) :
    SSMLRenderer.text (SSMLRenderer.text s) ≠ SSMLRenderer.text s := by
  have hamp : '&' ∈ escapeChars s.data := amp_mem_escapeChars s.data h
  have hlt : (escapeChars s.data).length < (escapeChars (escapeChars s.data)).length :=
    escapeChars_length_strict _ ⟨'&', hamp, by decide⟩
  intro heq
  have hdata : escapeChars (escapeChars s.data) = escapeChars s.data :=
    congrArg String.data heq
  rw [hdata] at hlt
  omega

/-- C6 counterexample: the claim fails as stated. An image title is
interpolated unescaped, so a title containing `<p>` adds a spurious
occurrence: this single-paragraph document renders with two `<p>` opening
tags. -/
theorem C6_counterexample :
    countP (renderDocument [Block.paragraph [Inline.image "url" "alt" (some "<p>")]]).data = 2 ∧
    blocksParagraphs [Block.paragraph [Inline.image "url" "alt" (some "<p>")]] = 1 ∧
    countP (renderDocument [Block.paragraph [Inline.image "url" "alt" (some "<p>")]]).data ≠
      blocksParagraphs [Block.paragraph [Inline.image "url" "alt" (some "<p>")]] := by
  refine ⟨by decide, by decide, by decide⟩

/-- C6 (amended): for every input document in which no image title contains
the character `<` (titles are interpolated unescaped), the number of `<p>`
opening-tag occurrences in the translator's output equals the number of
paragraph nodes in the parsed input document. -/
theorem C6_p_count_of_safe_titles (doc : List Block)
    (h : blocksTitlesOK noLt doc = true) :
    countP (renderDocument doc).data = blocksParagraphs doc := by
  have hd : (renderDocument doc).data =
      "<speak>".data ++ ((renderBlocks doc).data ++ "</speak>".data) := by
    simp [renderDocument, String.data_append]
  rw [hd, cnt0_speak_open, renderBlocks_cnt doc h]
  have hz : countP "</speak>".data = 0 := by decide
  rw [hz]
  exact Nat.add_zero _

/-- Witness for C6 (amended) on a document with two paragraphs, one nested
in a block quote, plus a titled image. -/
theorem C6_p_count_of_safe_titles_witness :
    blocksTitlesOK noLt
        [Block.paragraph [Inline.image "u" "a" (some "pic")],
         Block.blockQuote [Block.paragraph [Inline.text "x"]]] = true ∧
    countP (renderDocument
        [Block.paragraph [Inline.image "u" "a" (some "pic")],
         Block.blockQuote [Block.paragraph [Inline.text "x"]]]).data =
      blocksParagraphs
        [Block.paragraph [Inline.image "u" "a" (some "pic")],
         Block.blockQuote [Block.paragraph [Inline.text "x"]]] :=
  ⟨by decide, C6_p_count_of_safe_titles _ (by decide)⟩

/-- Witness for C7 at the input `<`: escaping twice yields `&amp;lt;`,
not `&lt;`. -/
theorem C7_escape_not_idempotent_witness :
    (∃ c ∈ ("<" : String).data, escapable c = true) ∧
    SSMLRenderer.text (SSMLRenderer.text "<") ≠ SSMLRenderer.text "<" :=
  ⟨by decide, C7_escape_not_idempotent "<" (by decide)⟩

/-- C9: for every run with the audio flag set in which the synthesis
collaborator fails with any error (the `synthesize_speech` call inside the
`try` block; the client construction, which precedes the `try`, is modelled
as succeeding), the failure is caught locally, the error message is printed,
the run completes normally (`.ok`, not aborted), and the SSML file write —
which appears in the trace before any synthesis activity — is the only
event touching the SSML path, so the file is left in place unchanged. -/
theorem C9_synthesis_failure_isolated
    (readInput : String → Except String String) (parse : String → List Block)
    (args : Args) (md e : String)
    (hread : readInput args.input_file = Except.ok md)
    (hflag : args.get_ogg = true) :
    main readInput parse (Except.ok ()) (fun _ => Except.error e) args =
      Except.ok
        [Event.wroteText (splitext_root args.input_file ++ ".ssml")
            (renderDocument (parse md)),
         Event.printed ("SSML content written to file '" ++
            (splitext_root args.input_file ++ ".ssml") ++ "'"),
         Event.printed ("Error generating audio: " ++ e)] := by
  simp [main, hread, hflag, get_ogg]
  rfl

/-- Witness for C9: a concrete run whose synthesis step fails with a quota
error still writes `doc.ssml`, prints the error and ends normally. -/
theorem C9_synthesis_failure_isolated_witness :
    main (fun _ => Except.ok "x") (fun _ => []) (Except.ok ())
        (fun _ => Except.error "quota") ⟨"doc.md", true⟩ =
      Except.ok
        [Event.wroteText (splitext_root "doc.md" ++ ".ssml") (renderDocument []),
         Event.printed ("SSML content written to file '" ++
            (splitext_root "doc.md" ++ ".ssml") ++ "'"),
         Event.printed ("Error generating audio: " ++ "quota")] :=
  C9_synthesis_failure_isolated (fun _ => Except.ok "x") (fun _ => [])
    ⟨"doc.md", true⟩ "x" "quota" rfl rfl

/-- C10: a document containing a node type the renderer does not override —
a blockquote, bullet list or ordered list — renders with the inherited HTML
markup (`<blockquote>`, `<ul>`, `<ol>`) present in the output inside the
`<speak>` envelope, rather than dropping the node or rendering it as SSML. -/
theorem C10_inherited_html_markup (doc : List Block) :
    (blocksHaveNode isBQ doc = true →
      hasSub (renderDocument doc).data "<blockquote>".data = true) ∧
    (blocksHaveNode isUL doc = true →
      hasSub (renderDocument doc).data "<ul>".data = true) ∧
    (blocksHaveNode isOL doc = true →
      hasSub (renderDocument doc).data "<ol>".data = true) := by
  have hd : (renderDocument doc).data =
      "<speak>".data ++ ((renderBlocks doc).data ++ "</speak>".data) := by
    simp [renderDocument, String.data_append]
  refine ⟨fun h => ?_, fun h => ?_, fun h => ?_⟩ <;> rw [hd]
  · exact hasSub_append_right _ _ _ (hasSub_append_left _ _ _
      (renderBlocks_hasSub isBQ _ bq_leads doc h))
  · exact hasSub_append_right _ _ _ (hasSub_append_left _ _ _
      (renderBlocks_hasSub isUL _ ul_leads doc h))
  · exact hasSub_append_right _ _ _ (hasSub_append_left _ _ _
      (renderBlocks_hasSub isOL _ ol_leads doc h))

/-- Witness for C10 on a document holding a blockquote, a bullet list and
an ordered list. -/
theorem C10_inherited_html_markup_witness :
    (blocksHaveNode isBQ
        [Block.blockQuote [Block.paragraph [Inline.text "q"]],
         Block.bulletList [Block.listItem [Block.paragraph [Inline.text "i"]]],
         Block.orderedList [Block.listItem [Block.paragraph [Inline.text "j"]]]] = true ∧
      hasSub (renderDocument
        [Block.blockQuote [Block.paragraph [Inline.text "q"]],
         Block.bulletList [Block.listItem [Block.paragraph [Inline.text "i"]]],
         Block.orderedList [Block.listItem [Block.paragraph [Inline.text "j"]]]]).data
        "<blockquote>".data = true) ∧
    (hasSub (renderDocument
        [Block.blockQuote [Block.paragraph [Inline.text "q"]],
         Block.bulletList [Block.listItem [Block.paragraph [Inline.text "i"]]],
         Block.orderedList [Block.listItem [Block.paragraph [Inline.text "j"]]]]).data
        "<ul>".data = true) ∧
    (hasSub (renderDocument
        [Block.blockQuote [Block.paragraph [Inline.text "q"]],
         Block.bulletList [Block.listItem [Block.paragraph [Inline.text "i"]]],
         Block.orderedList [Block.listItem [Block.paragraph [Inline.text "j"]]]]).data
        "<ol>".data = true) :=
  ⟨⟨by decide,
    (C10_inherited_html_markup
      [Block.blockQuote [Block.paragraph [Inline.text "q"]],
       Block.bulletList [Block.listItem [Block.paragraph [Inline.text "i"]]],
       Block.orderedList [Block.listItem [Block.paragraph [Inline.text "j"]]]]).1
      (by decide)⟩,
    (C10_inherited_html_markup
      [Block.blockQuote [Block.paragraph [Inline.text "q"]],
       Block.bulletList [Block.listItem [Block.paragraph [Inline.text "i"]]],
       Block.orderedList [Block.listItem [Block.paragraph [Inline.text "j"]]]]).2.1
      (by decide),
    (C10_inherited_html_markup
      [Block.blockQuote [Block.paragraph [Inline.text "q"]],
       Block.bulletList [Block.listItem [Block.paragraph [Inline.text "i"]]],
       Block.orderedList [Block.listItem [Block.paragraph [Inline.text "j"]]]]).2.2
      (by decide)⟩

end MdToSsml
